import Mathlib

/-!
Verification development for the `central-api` release-note service.

The definitions below are a shallow embedding of the Go sources:
* `pkg/ReleaseNoteService.go` — webhook-driven release synchronisation,
  prerequisite extraction, the relational "active row" store and the
  cloud cache + blob-marker store;
* `api/RestHandler.go` — the `GET /releases` pagination and the
  `POST /webhook/{secret}` gate;
* the webhook secret validator (`WebhookSecretValidator`).

Go byte-strings are modelled as `List Char` (all relevant data is ASCII,
where byte positions and character positions coincide); machine integers
as `Int`/`Nat`; fallible or panicking code as `Option`/explicit outcome
types; external collaborators (blob storage, the GitHub client, the
database driver) as explicit outcome oracles passed to each call.
-/

namespace CentralApi

/-! ## Time values

`UpdateReleases` parses `created_at` / `published_at` with Go's
`time.Parse` at the fixed layout `"2006-01-02T15:04:05Z"`
(`TimeFormatLayout`).  A parse failure is logged and the field is left at
its zero value.  `GoTime` models the parsed components; `zeroGoTime` is
Go's zero `time.Time` (January 1, year 1, 00:00:00). -/

structure GoTime where
  year : Nat
  month : Nat
  day : Nat
  hour : Nat
  minute : Nat
  second : Nat
  deriving DecidableEq, Repr

def zeroGoTime : GoTime := ⟨1, 1, 1, 0, 0, 0⟩

def digitVal (c : Char) : Option Nat :=
  if '0' ≤ c ∧ c ≤ '9' then some (c.toNat - '0'.toNat) else none

def twoDigits (a b : Char) : Option Nat := do
  let x ← digitVal a
  let y ← digitVal b
  pure (10 * x + y)

def isLeapYear (y : Nat) : Bool :=
  (y % 4 == 0 && y % 100 != 0) || y % 400 == 0

def daysInMonth (year month : Nat) : Nat :=
  if month = 2 then (if isLeapYear year then 29 else 28)
  else if month = 4 ∨ month = 6 ∨ month = 9 ∨ month = 11 then 30
  else 31

/-- Models Go `time.Parse(TimeFormatLayout, s)` for the fixed layout
`"2006-01-02T15:04:05Z"`: the input must be exactly
`YYYY-MM-DDTHH:MM:SSZ` with in-range month, day (per month/leap year),
hour, minute and second; `none` models the parse error (the caller keeps
the zero value). -/
def timeParse (s : String) : Option GoTime :=
  match s.toList with
  | [y1, y2, y3, y4, '-', m1, m2, '-', d1, d2, 'T',
     h1, h2, ':', mi1, mi2, ':', s1, s2, 'Z'] => do
    let yh ← twoDigits y1 y2
    let yl ← twoDigits y3 y4
    let year := 100 * yh + yl
    let month ← twoDigits m1 m2
    let day ← twoDigits d1 d2
    let hour ← twoDigits h1 h2
    let minute ← twoDigits mi1 mi2
    let second ← twoDigits s1 s2
    if 1 ≤ month ∧ month ≤ 12 ∧ 1 ≤ day ∧ day ≤ daysInMonth year month ∧
        hour ≤ 23 ∧ minute ≤ 59 ∧ second ≤ 59 then
      pure ⟨year, month, day, hour, minute, second⟩
    else none
  | _ => none

/-! ## The Release data model (`common.Release`) -/

structure Release where
  tagName : String
  releaseName : String
  body : String
  createdAt : GoTime
  publishedAt : GoTime
  tagLink : String
  prerequisite : Bool
  prerequisiteMessage : String
  deriving DecidableEq, Repr

/-- The `TagLink` constant of `ReleaseNoteService.go`. -/
def tagLinkPrefix : String := "https://github.com/devtron-labs/devtron/releases/tag"

/-- The `PrerequisitesMatcher` constant of `ReleaseNoteService.go`. -/
def prerequisitesMatcher : String := "<!--upgrade-prerequisites-required-->"

/-! ## Go string primitives

`getPrerequisiteContent` uses `strings.Contains`, `strings.Index`,
`strings.LastIndex`, `strings.ReplaceAll` and a byte-range slice.  They
are modelled on `List Char` with their documented semantics: `Index` /
`LastIndex` return the first / last occurrence position (or `-1`),
`Contains s sub ↔ Index s sub ≥ 0`, and `ReplaceAll` rewrites
occurrences left to right. -/

/-- Positions (in `[0, l.length]`) at which `pat` occurs in `l`. -/
def occPositions (l pat : List Char) : List Nat :=
  (List.range (l.length + 1)).filter (fun i => pat.isPrefixOf (l.drop i))

/-- Number of occurrences of `pat` in `l` (position-based count). -/
def occCount (l pat : List Char) : Nat := (occPositions l pat).length

/-- Go `strings.Index`: position of the first occurrence, `-1` if none. -/
def goIndex (l pat : List Char) : Int :=
  match (occPositions l pat).head? with
  | some i => (i : Int)
  | none => -1

/-- Go `strings.LastIndex`: position of the last occurrence, `-1` if none. -/
def goLastIndex (l pat : List Char) : Int :=
  match (occPositions l pat).getLast? with
  | some i => (i : Int)
  | none => -1

/-- Go `strings.Contains`. -/
def goContains (l pat : List Char) : Bool := decide (0 ≤ goIndex l pat)

/-- Go slice expression `s[start:stop]` (both bounds in range here). -/
def goSlice (l : List Char) (start stop : Int) : List Char :=
  (l.drop start.toNat).take (stop.toNat - start.toNat)

/-- Left-to-right replacement loop of `strings.ReplaceAll`, with a fuel
argument making the recursion structural; with nonempty `old`, every
step consumes at least one character, so fuel `s.length` is enough. -/
def goReplaceAllAux (old new : List Char) : Nat → List Char → List Char
  | _, [] => []
  | 0, s => s
  | fuel + 1, c :: t =>
    if old.isPrefixOf (c :: t) then
      new ++ goReplaceAllAux old new fuel ((c :: t).drop old.length)
    else
      c :: goReplaceAllAux old new fuel t

/-- Go `strings.ReplaceAll s old new`.  For empty `old`, Go inserts
`new` before every character and at the end; otherwise occurrences are
replaced left to right, skipping past each replaced occurrence. -/
def goReplaceAll (s old new : List Char) : List Char :=
  if old = [] then
    new ++ s.flatMap (fun c => c :: new)
  else
    goReplaceAllAux old new s.length s

/-! ## Prerequisite extraction (`getPrerequisiteContent`) -/

/-- Model of `getPrerequisiteContent` in `ReleaseNoteService.go` (lines 362–373):
if the body contains `PrerequisitesMatcher`, set `prerequisite := true`;
if the last occurrence is at position `0`, return early; otherwise the
message is `ReplaceAll(body[start:end], matcher, "")` where `start`/`end`
are the first/last occurrence positions. -/
def getPrerequisiteContent (releaseInfo : Release) : Release :=
  let bodyL := releaseInfo.body.toList
  let matcher := prerequisitesMatcher.toList
  if goContains bodyL matcher then
    let withFlag := { releaseInfo with prerequisite := true }
    let start := goIndex bodyL matcher
    let stop := goLastIndex bodyL matcher
    if stop = 0 then withFlag
    else
      { withFlag with
        prerequisiteMessage :=
          String.mk (goReplaceAll (goSlice bodyL start stop) matcher []) }
  else releaseInfo

/-! ## Merge by tag name (`UpdateReleases`, lines 144–159)

The Go loop walks the copied list, overwrites `ReleaseName` and `Body`
of every entry whose tag matches the incoming release, and prepends the
incoming release when no entry matched. -/

def mergeRelease (releaseInfo : Release) (releaseNotes : List Release) : List Release :=
  let releaseList := releaseNotes.map (fun release =>
    if release.tagName = releaseInfo.tagName then
      { release with
        releaseName := releaseInfo.releaseName
        body := releaseInfo.body }
    else release)
  if releaseNotes.any (fun release => release.tagName = releaseInfo.tagName) then
    releaseList
  else
    releaseInfo :: releaseList

/-! ## Webhook payload (generic decoded JSON)

`UpdateReleases` unmarshals the request body into
`map[string]interface{}` and accesses fields through unchecked type
assertions.  `Json` models a decoded JSON document (`encoding/json`
itself is an external collaborator; `Json.obj` is the decoded generic
map, other constructors make the unmarshal-into-map call fail).  A
failed type assertion is a runtime panic. -/

inductive Json where
  | null
  | bool (b : Bool)
  | num (q : ℚ)
  | str (s : String)
  | arr (elems : List Json)
  | obj (members : List (String × Json))

/-- Go map lookup on the unmarshalled object: a missing key yields the
nil interface value (`Json.null` here, so a subsequent string assertion
panics); for duplicate JSON keys `encoding/json` keeps the last one. -/
def lookupMember (members : List (String × Json)) (key : String) : Json :=
  members.foldl (fun acc kv => if kv.1 = key then kv.2 else acc) Json.null

/-- Type assertion `.(string)`: `none` models the runtime panic. -/
def Json.asString : Json → Option String
  | .str s => some s
  | _ => none

/-- Type assertion `.(map[string]interface{})`: `none` models the panic. -/
def Json.asObj : Json → Option (List (String × Json))
  | .obj members => some members
  | _ => none

/-- A webhook payload of the documented shape
`{action, release: {name, tag_name, created_at, published_at, body}}`. -/
def mkWebhookPayload (action releaseName tagName createdAt publishedAt body : String) : Json :=
  .obj [("action", .str action),
        ("release", .obj [("name", .str releaseName),
                          ("tag_name", .str tagName),
                          ("created_at", .str createdAt),
                          ("published_at", .str publishedAt),
                          ("body", .str body)])]

/-- The `common.Release` built by `UpdateReleases` from the extracted
payload fields (before prerequisite extraction). -/
def mkParsedRelease (releaseName tagName createdAtString publishedAtString body : String) : Release :=
  { tagName := tagName
    releaseName := releaseName
    body := body
    createdAt := (timeParse createdAtString).getD zeroGoTime
    publishedAt := (timeParse publishedAtString).getD zeroGoTime
    tagLink := tagLinkPrefix ++ "/" ++ tagName
    prerequisite := false
    prerequisiteMessage := "" }

/-! ## Persistent store (relational variant) and effect model -/

/-- A row of `release_notes` (`releaseNote.ReleaseNote`). -/
structure ReleaseNoteRecord where
  id : Nat
  releaseNote : List Release
  isActive : Bool
  createdOn : GoTime
  updatedOn : Option GoTime
  deriving DecidableEq, Repr

/-- The mutable state of the service: the process-wide
`releaseCache[CACHE_KEY]` entry (`none` = key never written) and the
rows of the `release_notes` table. -/
structure ServiceState where
  cache : Option (List Release)
  db : List ReleaseNoteRecord
  deriving DecidableEq, Repr

/-- The `BlobConfigVariables.CloudConfigured` flag selects the backend variant. -/
structure BlobConfig where
  cloudConfigured : Bool
  deriving DecidableEq, Repr

inductive GoErr where
  | unmarshalError
  | errNoRows
  | dbError
  | blobError
  | githubFetchError
  deriving DecidableEq, Repr

/-- Outcomes of the external collaborators for one service call: the
database driver (find/begin/update/save/commit can each fail), the blob
client (file write and upload can fail, download yields the marker tag
or fails) and the GitHub fetch-with-retry (`none` = exhausted retries). -/
structure EffectOracle where
  dbFindOk : Bool
  dbBeginOk : Bool
  dbUpdateOk : Bool
  dbSaveOk : Bool
  dbCommitOk : Bool
  blobFileOk : Bool
  blobUploadOk : Bool
  blobLatestTag : Option String
  githubReleases : Option (List Release)
  deriving DecidableEq, Repr

/-- The all-effects-succeed oracle. -/
def oracleOk : EffectOracle :=
  { dbFindOk := true, dbBeginOk := true, dbUpdateOk := true,
    dbSaveOk := true, dbCommitOk := true, blobFileOk := true,
    blobUploadOk := true, blobLatestTag := none, githubReleases := none }

/-- Modelled from the spec: the repository's `FindActive` (declared in
`pkg/releaseNote`, implementation not under `src/`) loads the single row
with `is_active = true`; with no such row the driver reports
`pg.ErrNoRows`. -/
def findActive (db : List ReleaseNoteRecord) : Option ReleaseNoteRecord :=
  db.find? (fun r => r.isActive)

/-- Model of `getActiveReleaseNote` in `ReleaseNoteService.go`: wraps
`FindActive`, passing driver errors through. -/
def getActiveReleaseNote (o : EffectOracle) (db : List ReleaseNoteRecord) :
    Except GoErr ReleaseNoteRecord :=
  if ¬ o.dbFindOk then .error .dbError
  else
    match findActive db with
    | none => .error .errNoRows
    | some r => .ok r

/-- Modelled from the spec: the repository's `Save` inserts the record
with the next value of the `id_release_note` sequence; fresh ids are
positive and distinct from every stored id (abstracted as max + 1). -/
def nextReleaseNoteId (db : List ReleaseNoteRecord) : Nat :=
  db.foldr (fun r acc => max r.id acc) 0 + 1

/-- Modelled from the spec: the repository's `Update` persists the
modified record within the transaction, matched by primary key `id`. -/
def storeRecord (db : List ReleaseNoteRecord) (rec : ReleaseNoteRecord) :
    List ReleaseNoteRecord :=
  db.map (fun r => if r.id = rec.id then rec else r)

/-- The `Save`-then-`Commit` tail of `updateReleaseNotesInDb`: on any
failure the deferred `tx.Rollback` leaves the table at `db0`. -/
def saveAndCommit (o : EffectOracle) (now : GoTime)
    (db0 staged : List ReleaseNoteRecord) (releaseList : List Release) :
    List ReleaseNoteRecord × Option GoErr :=
  if ¬ o.dbSaveOk then (db0, some .dbError)
  else if ¬ o.dbCommitOk then (db0, some .dbError)
  else
    (staged ++ [{ id := nextReleaseNoteId staged, releaseNote := releaseList,
                  isActive := true, createdOn := now, updatedOn := none }], none)

/-- Model of `updateReleaseNotesInDb` in `ReleaseNoteService.go` (lines 512–556):
begin a transaction, load the active row (`pg.ErrNoRows` tolerated only
when not called from the webhook path), mark it inactive, insert the new
active row, commit; every failure path rolls back to the original
table. -/
def updateReleaseNotesInDb (o : EffectOracle) (now : GoTime)
    (db : List ReleaseNoteRecord) (releaseList : List Release)
    (webhookResult : Bool) : List ReleaseNoteRecord × Option GoErr :=
  if ¬ o.dbBeginOk then (db, some .dbError)
  else
    match getActiveReleaseNote o db with
    | .error e =>
      if e = .errNoRows ∧ ¬ webhookResult then
        saveAndCommit o now db db releaseList
      else (db, some e)
    | .ok obj =>
      if obj.id > 0 then
        if ¬ o.dbUpdateOk then (db, some .dbError)
        else
          saveAndCommit o now db
            (storeRecord db { obj with isActive := false, updatedOn := some now })
            releaseList
      else saveAndCommit o now db db releaseList

/-! ## The UpdateReleases operation -/

inductive UpdateOutcome where
  | panic
  | result (updated : Bool) (err : Option GoErr)
  deriving DecidableEq, Repr

/-- Model of `updateTagToBlobStorage`: write the tag marker to the local file,
then upload it; either step may fail with the error surfaced. -/
def updateTagToBlobStorage (o : EffectOracle) : Bool × Option GoErr :=
  if ¬ o.blobFileOk then (false, some .blobError)
  else if ¬ o.blobUploadOk then (false, some .blobError)
  else (true, none)

/-- Model of `UpdateReleases` in `ReleaseNoteService.go` (lines 91–170) on the
decoded payload: reject non-object documents as unmarshal errors,
type-assert `action` (panic on failure), ignore actions outside
{published, edited}, type-assert the `release` fields (panic on
failure), parse timestamps non-fatally, derive prerequisites, merge by
tag name, then persist via the configured backend.  In the cloud
variant the cache is replaced before the blob upload; in the relational
variant the error of `updateReleaseNotesInDb` is discarded and
`(true, nil)` returned. -/
def updateReleases (cfg : BlobConfig) (o : EffectOracle) (now : GoTime)
    (st : ServiceState) (payload : Json) : ServiceState × UpdateOutcome :=
  match payload with
  | .obj data =>
    (match (lookupMember data "action").asString with
     | none => (st, .panic)
     | some action =>
       if action ≠ "published" ∧ action ≠ "edited" then (st, .result false none)
       else
         match (lookupMember data "release").asObj with
         | none => (st, .panic)
         | some releaseData =>
           match (lookupMember releaseData "name").asString with
           | none => (st, .panic)
           | some releaseName =>
             match (lookupMember releaseData "tag_name").asString with
             | none => (st, .panic)
             | some tagName =>
               match (lookupMember releaseData "created_at").asString with
               | none => (st, .panic)
               | some createdAtString =>
                 match (lookupMember releaseData "published_at").asString with
                 | none => (st, .panic)
                 | some publishedAtString =>
                   match (lookupMember releaseData "body").asString with
                   | none => (st, .panic)
                   | some body =>
                     let releaseInfo := getPrerequisiteContent
                       (mkParsedRelease releaseName tagName createdAtString
                         publishedAtString body)
                     if cfg.cloudConfigured then
                       let releaseList := mergeRelease releaseInfo (st.cache.getD [])
                       let st' := { st with cache := some releaseList }
                       let r := updateTagToBlobStorage o
                       (st', .result r.1 r.2)
                     else
                       match getActiveReleaseNote o st.db with
                       | .error e => (st, .result false (some e))
                       | .ok obj =>
                         let releaseList := mergeRelease releaseInfo obj.releaseNote
                         let r := updateReleaseNotesInDb o now st.db releaseList true
                         ({ st with db := r.1 }, .result true none))
  | _ => (st, .result false (some .unmarshalError))

/-! ## The GetReleases operation -/

inductive GetOutcome where
  | panic
  | result (releases : List Release) (err : Option GoErr)
  deriving DecidableEq, Repr

/-- Cloud-variant refresh path of `GetReleases`: fetch from GitHub with
retry; on success with a nonempty list, replace the cache and upload
the new marker (surfacing an upload error with the cache already
replaced). -/
def getReleasesCloudRefresh (o : EffectOracle) (st : ServiceState) :
    ServiceState × GetOutcome :=
  match o.githubReleases with
  | none => (st, .result [] (some .githubFetchError))
  | some releaseList =>
    if releaseList = [] then (st, .result [] none)
    else
      let st' := { st with cache := some releaseList }
      let r := updateTagToBlobStorage o
      match r.2 with
      | some e => (st', .result releaseList (some e))
      | none => (st', .result releaseList none)

/-- Relational-variant refresh path of `GetReleases`: fetch from GitHub
with retry, then persist through `updateReleaseNotesInDb` (whose error
is discarded). -/
def getReleasesDbRefresh (o : EffectOracle) (now : GoTime) (st : ServiceState) :
    ServiceState × GetOutcome :=
  match o.githubReleases with
  | none => (st, .result [] (some .githubFetchError))
  | some releaseList =>
    let r := updateReleaseNotesInDb o now st.db releaseList false
    ({ st with db := r.1 }, .result releaseList none)

/-- Model of `GetReleases` in `ReleaseNoteService.go` (lines 263–319).  Cloud
variant: download the latest-tag marker, serve the cache when its head
tag matches, otherwise refresh (reading `releaseCache[CACHE_KEY][0]`
panics when the cached list is empty).  Relational variant: serve the
active row, refreshing from GitHub when there is none or its list is
empty. -/
def getReleases (cfg : BlobConfig) (o : EffectOracle) (now : GoTime)
    (st : ServiceState) : ServiceState × GetOutcome :=
  if cfg.cloudConfigured then
    match o.blobLatestTag with
    | none => (st, .result [] (some .blobError))
    | some latestTagFromBlob =>
      match st.cache with
      | some [] => (st, .panic)
      | some (r0 :: rest) =>
        if r0.tagName = latestTagFromBlob then (st, .result (r0 :: rest) none)
        else getReleasesCloudRefresh o st
      | none =>
        if "" = latestTagFromBlob then (st, .result [] none)
        else getReleasesCloudRefresh o st
  else
    match getActiveReleaseNote o st.db with
    | .error e =>
      if e ≠ .errNoRows then (st, .result [] (some e))
      else getReleasesDbRefresh o now st
    | .ok obj =>
      if obj.releaseNote = [] then getReleasesDbRefresh o now st
      else (st, .result obj.releaseNote none)

/-! ## Operation sequences over the store -/

inductive ServiceOp where
  | update (o : EffectOracle) (now : GoTime) (payload : Json)
  | get (o : EffectOracle) (now : GoTime)

def applyServiceOp (cfg : BlobConfig) (st : ServiceState) : ServiceOp → ServiceState
  | .update o now payload => (updateReleases cfg o now st payload).1
  | .get o now => (getReleases cfg o now st).1

def runServiceOps (cfg : BlobConfig) (st : ServiceState) (ops : List ServiceOp) :
    ServiceState :=
  ops.foldl (applyServiceOp cfg) st

/-- The state at process start: cache key unwritten, empty table. -/
def initialServiceState : ServiceState := { cache := none, db := [] }

/-- Number of rows with `is_active = true`. -/
def activeCount (db : List ReleaseNoteRecord) : Nat :=
  (db.filter (fun r => r.isActive)).length

/-! ## Pagination of GET /releases (`RestHandler.GetReleases`, lines 61–97)

`offset` and `size` arrive as query parameters parsed with
`strconv.Atoi`; an absent parameter leaves the Go zero value `0`.  The
slice step is taken only when both are positive; `response[offset:]`
panics (`none`) when `offset` exceeds the list length. -/

def paginateReleases (response : List Release) (offset limit : Int) :
    Option (List Release) :=
  if 0 < limit ∧ 0 < offset then
    if offset + limit ≤ (response.length : Int) then
      some ((response.drop offset.toNat).take limit.toNat)
    else if offset ≤ (response.length : Int) then
      some (response.drop offset.toNat)
    else none
  else some response

/-! ## Webhook gate of POST /webhook (`ReleaseWebhookHandler`, lines 99–138) -/

inductive WebhookDecision where
  | unauthorized
  | badRequest
  | invokeUpdate
  deriving DecidableEq, Repr

/-- The handler's control flow after reading the body: reject an
invalid signature with 401; then the event-type check
`len(eventType) == 0 && eventType != "release"` rejects with 400;
otherwise `UpdateReleases` is invoked. -/
def releaseWebhookGate (isValidSig : Bool) (eventType : String) : WebhookDecision :=
  if ¬ isValidSig then .unauthorized
  else if eventType.length = 0 ∧ eventType ≠ "release" then .badRequest
  else .invokeUpdate

/-! ## Webhook secret validator (`WebhookSecretValidator.ValidateSecret`) -/

/-- The configuration fields the validator reads. -/
structure GitHubConfig where
  gitHubSecretValidator : String
  gitHubWebhookSecret : String
  deriving DecidableEq, Repr

/-- The request data the validator reads: the value of the configured
secret header, the `{secret}` path segment of the callback URL, and the
raw body. -/
structure WebhookRequest where
  secretHeaderValue : String
  urlLastSegment : String
  body : String
  deriving DecidableEq, Repr

/-- Go `strings.SplitN(s, sep, 2)` for nonempty `sep`: split at the
first occurrence of `sep`; without one the result is `[s]`. -/
def goSplitN2 (s sep : String) : List String :=
  let l := s.toList
  let sepL := sep.toList
  match (occPositions l sepL).head? with
  | some i => [String.mk (l.take i), String.mk (l.drop (i + sepL.length))]
  | none => [s]

/-- Model of `ValidateSecret` (webhook secret validator, lines 55–88).
`hmacSha1Hex secret body` abstracts the off-the-shelf HMAC-SHA1 hex
digest (out-of-scope primitive; `hash.Write` on an HMAC never fails).
`none` models the runtime panic of `gotHash[1]` when the header holds no
`"="`.  The `URL_APPEND` case body is commented out in the source, so
control falls through to the final `return false`. -/
def validateSecret (hmacSha1Hex : String → String → String)
    (cfg : GitHubConfig) (r : WebhookRequest) : Option Bool :=
  if cfg.gitHubSecretValidator = "SHA-1" then
    match goSplitN2 r.secretHeaderValue "=" with
    | [g0] => if g0 ≠ "sha1" then some false else none
    | g0 :: g1 :: _ =>
      if g0 ≠ "sha1" then some false
      else some (g1 = hmacSha1Hex cfg.gitHubWebhookSecret r.body)
    | [] => none
  else if cfg.gitHubSecretValidator = "URL_APPEND" then
    some false
  else if cfg.gitHubSecretValidator = "PLAIN_TEXT" then
    some (r.secretHeaderValue = cfg.gitHubWebhookSecret)
  else some false

/-! ## Concrete instances used in witnesses and counterexamples -/

/-- Number of entries of `l` carrying tag name `t`. -/
def tagCount (l : List Release) (t : String) : Nat :=
  (l.filter (fun r => r.tagName = t)).length

def mkSampleRelease (i : Nat) : Release :=
  { tagName := toString i, releaseName := "", body := "",
    createdAt := zeroGoTime, publishedAt := zeroGoTime, tagLink := "",
    prerequisite := false, prerequisiteMessage := "" }

def tenReleases : List Release := (List.range 10).map mkSampleRelease

/-- A release whose body is the spec's prerequisite example. -/
def sampleBodyRelease : Release :=
  { tagName := "t", releaseName := "n",
    body := "intro <!--upgrade-prerequisites-required-->do X<!--upgrade-prerequisites-required-->outro",
    createdAt := zeroGoTime, publishedAt := zeroGoTime, tagLink := "",
    prerequisite := false, prerequisiteMessage := "" }

/-- An active `release_notes` row, as the relational store holds after a
successful refresh. -/
def relActiveRec : ReleaseNoteRecord :=
  { id := 1, releaseNote := [], isActive := true,
    createdOn := zeroGoTime, updatedOn := none }

/-- A state of the relational variant with one active row. -/
def stRelActive : ServiceState := { cache := none, db := [relActiveRec] }

/-- Oracle failing the transaction commit and the blob upload. -/
def oracleFail : EffectOracle :=
  { oracleOk with dbCommitOk := false, blobUploadOk := false }

def c1Payload1 : Json :=
  mkWebhookPayload "published" "n1" "v1"
    "2021-01-01T00:00:00Z" "2021-01-01T00:00:00Z" "b1"

def c1Payload2 : Json :=
  mkWebhookPayload "published" "n2" "v1"
    "2022-01-01T00:00:00Z" "2022-01-01T00:00:00Z" "b2"

/-! # Helper lemmas -/

lemma isPrefixOf_append_self (p r : List Char) : p.isPrefixOf (p ++ r) = true := by
  induction p with
  | nil => simp
  | cons a t ih => simp [List.isPrefixOf, ih]

lemma isPrefixOf_append_extend {p x : List Char} (y : List Char)
    (h : p.isPrefixOf x = true) : p.isPrefixOf (x ++ y) = true := by
  induction p generalizing x with
  | nil => simp
  | cons a t ih =>
    cases x with
    | nil => simp [List.isPrefixOf] at h
    | cons b xs =>
      simp only [List.isPrefixOf, Bool.and_eq_true, beq_iff_eq] at h
      simp only [List.cons_append, List.isPrefixOf, Bool.and_eq_true, beq_iff_eq]
      exact ⟨h.1, ih (h.2)⟩

lemma isPrefixOf_nil_eq_false {p : List Char} (hp : p ≠ []) :
    p.isPrefixOf [] = false := by
  cases p with
  | nil => exact absurd rfl hp
  | cons a t => rfl

lemma mem_occPositions {l pat : List Char} {i : Nat} :
    i ∈ occPositions l pat ↔ i < l.length + 1 ∧ pat.isPrefixOf (l.drop i) = true := by
  simp [occPositions, List.mem_filter, List.mem_range]

lemma occPositions_pairwise (l pat : List Char) :
    (occPositions l pat).Pairwise (· < ·) :=
  List.Pairwise.filter _ (List.pairwise_lt_range _)

lemma occPositions_eq_pair {l pat : List Char} {p q : Nat}
    (hlen : occCount l pat = 2) (hpq : p < q)
    (hp : p ∈ occPositions l pat) (hq : q ∈ occPositions l pat) :
    occPositions l pat = [p, q] := by
  unfold occCount at hlen
  obtain ⟨x, y, hxy⟩ := List.length_eq_two.mp hlen
  have hs := occPositions_pairwise l pat
  rw [hxy] at hp hq hs ⊢
  have hxy' : x < y := by
    have h := List.pairwise_cons.mp hs
    exact h.1 y (by simp)
  simp only [List.mem_cons, List.not_mem_nil, or_false] at hp hq
  rcases hp with hp | hp <;> rcases hq with hq | hq <;> subst hp <;> subst hq
  · omega
  · rfl
  · omega
  · omega

lemma goIndex_eq_head {l pat : List Char} {p q : Nat}
    (h : occPositions l pat = [p, q]) : goIndex l pat = p := by
  simp [goIndex, h]

lemma goLastIndex_eq_last {l pat : List Char} {p q : Nat}
    (h : occPositions l pat = [p, q]) : goLastIndex l pat = q := by
  simp [goLastIndex, h]

lemma goIndex_of_nil {l pat : List Char} (h : occPositions l pat = []) :
    goIndex l pat = -1 := by
  simp [goIndex, h]

lemma goIndex_of_singleton {l pat : List Char} {p : Nat}
    (h : occPositions l pat = [p]) : goIndex l pat = p := by
  simp [goIndex, h]

lemma goLastIndex_of_singleton {l pat : List Char} {p : Nat}
    (h : occPositions l pat = [p]) : goLastIndex l pat = p := by
  simp [goLastIndex, h]

lemma goReplaceAllAux_id {old new : List Char} :
    ∀ (fuel : Nat) (s : List Char), s.length ≤ fuel →
      (∀ i, old.isPrefixOf (s.drop i) = false) →
      goReplaceAllAux old new fuel s = s := by
  intro fuel
  induction fuel with
  | zero =>
    intro s hs _
    cases s with
    | nil => rfl
    | cons c t => simp at hs
  | succ f ih =>
    intro s hs hno
    cases s with
    | nil => rfl
    | cons c t =>
      have h0 := hno 0
      simp only [List.drop_zero] at h0
      simp only [goReplaceAllAux, h0, Bool.false_eq_true, if_false]
      have ht : goReplaceAllAux old new f t = t := by
        refine ih t ?_ ?_
        · simpa using Nat.lt_succ_iff.mp (Nat.lt_of_lt_of_le (by simp) hs)
        · intro i
          simpa using hno (i + 1)
      rw [ht]

lemma goReplaceAll_id {old : List Char} (new : List Char) {s : List Char}
    (hold : old ≠ []) (hno : ∀ i, old.isPrefixOf (s.drop i) = false) :
    goReplaceAll s old new = s := by
  unfold goReplaceAll
  rw [if_neg hold]
  exact goReplaceAllAux_id s.length s le_rfl hno

lemma goReplaceAll_strip {old m : List Char} (hold : old ≠ [])
    (hno : ∀ i, old.isPrefixOf (m.drop i) = false) :
    goReplaceAll (old ++ m) old [] = m := by
  unfold goReplaceAll
  rw [if_neg hold]
  cases hOld : old with
  | nil => exact absurd hOld hold
  | cons a ot =>
    simp only [List.cons_append, List.length_cons, List.length_append]
    rw [goReplaceAllAux]
    have hpre : (a :: ot).isPrefixOf (a :: (ot ++ m)) = true := by
      simp only [← List.cons_append]
      exact isPrefixOf_append_self (a :: ot) m
    simp only [hpre, if_true, List.nil_append]
    have hdrop : (a :: (ot ++ m)).drop (a :: ot).length = m := by
      simp only [List.length_cons, List.drop_succ_cons]
      exact List.drop_left ot m
    rw [hdrop]
    refine goReplaceAllAux_id _ _ (by simp) ?_
    intro i
    have := hno i
    rwa [hOld] at this

/-- When a list decomposes around exactly two occurrences of `M`, the
middle segment contains no occurrence of `M` at all. -/
lemma middle_no_occ {M a m c l : List Char} (hM : M ≠ [])
    (hdec : l = a ++ (M ++ (m ++ (M ++ c))))
    (hpair : occPositions l M = [a.length, a.length + M.length + m.length]) :
    ∀ i, M.isPrefixOf (m.drop i) = false := by
  intro i
  have hMpos : 0 < M.length := List.length_pos.mpr hM
  by_cases him : m.length ≤ i
  · rw [List.drop_eq_nil_of_le him]
    exact isPrefixOf_nil_eq_false hM
  · push_neg at him
    cases hb : M.isPrefixOf (m.drop i) with
    | false => rfl
    | true =>
      exfalso
      have hdrop : l.drop (a.length + M.length + i) = m.drop i ++ (M ++ c) := by
        subst hdec
        have h1 : a ++ (M ++ (m ++ (M ++ c))) = (a ++ M) ++ (m ++ (M ++ c)) := by
          simp [List.append_assoc]
        rw [h1, List.drop_append_eq_append_drop]
        have h2 : (a ++ M).length ≤ a.length + M.length + i := by
          simp [List.length_append]
        rw [List.drop_eq_nil_of_le h2, List.nil_append]
        have h3 : a.length + M.length + i - (a ++ M).length = i := by
          simp [List.length_append]
        rw [h3, List.drop_append_eq_append_drop]
        have h4 : i - m.length = 0 := by omega
        rw [h4, List.drop_zero]
      have hmem : a.length + M.length + i ∈ occPositions l M := by
        rw [mem_occPositions]
        constructor
        · subst hdec
          simp only [List.length_append]
          omega
        · rw [hdrop]
          exact isPrefixOf_append_extend _ hb
      rw [hpair] at hmem
      simp only [List.mem_cons, List.not_mem_nil, or_false] at hmem
      omega

/-! # Claim theorems -/

/-- C2.  Prerequisite extraction: when the body decomposes around
exactly two occurrences of the marker `<!--upgrade-prerequisites-required-->`,
`getPrerequisiteContent` sets `prerequisite = true` and stores as
`prerequisiteMessage` the text between the two occurrences with the
marker text stripped (the spec's example body yields `"do X"`); and when
the marker occurs fewer than two times in the body of a release carrying
no message, no message is set. -/
theorem getPrerequisiteContent_extraction (r : Release) (a m c : List Char) :
    (r.body.toList
        = a ++ (prerequisitesMatcher.toList
            ++ (m ++ (prerequisitesMatcher.toList ++ c))) →
      occCount r.body.toList prerequisitesMatcher.toList = 2 →
      (getPrerequisiteContent r).prerequisite = true ∧
        (getPrerequisiteContent r).prerequisiteMessage = String.mk m)
    ∧ (occCount r.body.toList prerequisitesMatcher.toList < 2 →
        r.prerequisiteMessage = "" →
        (getPrerequisiteContent r).prerequisiteMessage = "") := by
  have hMne : prerequisitesMatcher.toList ≠ [] := by decide
  have hMpos : 0 < prerequisitesMatcher.toList.length := List.length_pos.mpr hMne
  constructor
  · intro hdec hcount
    have hp1 : a.length ∈ occPositions r.body.toList prerequisitesMatcher.toList := by
      rw [mem_occPositions]
      constructor
      · rw [hdec]
        simp only [List.length_append]
        omega
      · rw [hdec, List.drop_left]
        exact isPrefixOf_append_self _ _
    have hp2 : a.length + prerequisitesMatcher.toList.length + m.length
        ∈ occPositions r.body.toList prerequisitesMatcher.toList := by
      rw [mem_occPositions]
      constructor
      · rw [hdec]
        simp only [List.length_append]
        omega
      · rw [hdec]
        have h1 : a ++ (prerequisitesMatcher.toList
              ++ (m ++ (prerequisitesMatcher.toList ++ c)))
            = ((a ++ prerequisitesMatcher.toList) ++ m)
              ++ (prerequisitesMatcher.toList ++ c) := by
          simp [List.append_assoc]
        rw [h1]
        have h2 : a.length + prerequisitesMatcher.toList.length + m.length
            = ((a ++ prerequisitesMatcher.toList) ++ m).length := by
          simp only [List.length_append]
        rw [h2, List.drop_left]
        exact isPrefixOf_append_self _ _
    have hpair := occPositions_eq_pair hcount (by omega) hp1 hp2
    have hidx := goIndex_eq_head hpair
    have hlast := goLastIndex_eq_last hpair
    have hcont : goContains r.body.toList prerequisitesMatcher.toList = true := by
      unfold goContains
      rw [hidx]
      simp
    have hnoocc := middle_no_occ hMne hdec hpair
    have hslice : goSlice r.body.toList (a.length : Nat)
        ((a.length + prerequisitesMatcher.toList.length + m.length : Nat) : Int)
        = prerequisitesMatcher.toList ++ m := by
      unfold goSlice
      rw [Int.toNat_ofNat, Int.toNat_ofNat, hdec]
      have h1 : a ++ (prerequisitesMatcher.toList
            ++ (m ++ (prerequisitesMatcher.toList ++ c)))
          = a ++ ((prerequisitesMatcher.toList ++ m)
            ++ (prerequisitesMatcher.toList ++ c)) := by
        simp [List.append_assoc]
      rw [h1, List.drop_left]
      have h2 : a.length + prerequisitesMatcher.toList.length + m.length - a.length
          = (prerequisitesMatcher.toList ++ m).length := by
        simp only [List.length_append]
        omega
      rw [h2, List.take_left]
    have hzero : ¬ (((a.length + prerequisitesMatcher.toList.length + m.length : Nat) : Int) = 0) := by
      simp only [Nat.cast_eq_zero]
      omega
    refine ⟨?_, ?_⟩
    · simp only [getPrerequisiteContent, hcont, eq_self_iff_true, if_true]
      split <;> rfl
    · simp only [getPrerequisiteContent, hcont, eq_self_iff_true, if_true, hidx, hlast]
      rw [if_neg hzero, hslice, goReplaceAll_strip hMne hnoocc]
  · intro hcount hmsg
    unfold occCount at hcount
    cases hP : occPositions r.body.toList prerequisitesMatcher.toList with
    | nil =>
      have hcont : goContains r.body.toList prerequisitesMatcher.toList = false := by
        unfold goContains
        rw [goIndex_of_nil hP]
        rfl
      simp only [getPrerequisiteContent, hcont, Bool.false_eq_true, if_false]
      exact hmsg
    | cons p rest =>
      cases rest with
      | nil =>
        have hidx := goIndex_of_singleton hP
        have hlast := goLastIndex_of_singleton hP
        have hcont : goContains r.body.toList prerequisitesMatcher.toList = true := by
          unfold goContains
          rw [hidx]
          simp
        by_cases hp0 : ((p : Nat) : Int) = 0
        · simp only [getPrerequisiteContent, hcont, eq_self_iff_true, if_true, hidx, hlast]
          rw [if_pos hp0]
          exact hmsg
        · have hslice : goSlice r.body.toList ((p : Nat) : Int) ((p : Nat) : Int) = [] := by
            unfold goSlice
            simp
          have hrepl : goReplaceAll [] prerequisitesMatcher.toList [] = [] := by
            unfold goReplaceAll
            rw [if_neg hMne]
            rfl
          simp only [getPrerequisiteContent, hcont, eq_self_iff_true, if_true, hidx, hlast]
          rw [if_neg hp0, hslice, hrepl]
      | cons q rest2 =>
        exfalso
        rw [hP] at hcount
        simp at hcount
        omega

/-- C2 witness: the spec's concrete example body. -/
theorem getPrerequisiteContent_extraction_witness :
    (getPrerequisiteContent sampleBodyRelease).prerequisite = true ∧
      (getPrerequisiteContent sampleBodyRelease).prerequisiteMessage = "do X" := by
  have h := (getPrerequisiteContent_extraction sampleBodyRelease
      "intro ".toList "do X".toList "outro".toList).1 (by decide) (by decide)
  exact ⟨h.1, h.2.trans (by decide)⟩

lemma getPrerequisiteContent_preserves (r : Release) :
    (getPrerequisiteContent r).tagName = r.tagName ∧
      (getPrerequisiteContent r).releaseName = r.releaseName ∧
      (getPrerequisiteContent r).body = r.body ∧
      (getPrerequisiteContent r).createdAt = r.createdAt ∧
      (getPrerequisiteContent r).publishedAt = r.publishedAt ∧
      (getPrerequisiteContent r).tagLink = r.tagLink := by
  simp only [getPrerequisiteContent]
  split
  · split <;> exact ⟨rfl, rfl, rfl, rfl, rfl, rfl⟩
  · exact ⟨rfl, rfl, rfl, rfl, rfl, rfl⟩

lemma tagCount_cons (r : Release) (tl : List Release) (t : String) :
    tagCount (r :: tl) t = (if r.tagName = t then 1 else 0) + tagCount tl t := by
  unfold tagCount
  rw [List.filter_cons]
  by_cases h : r.tagName = t <;> simp [h, Nat.add_comm]

lemma mergeUpdate_tagName (ri r : Release) :
    (if r.tagName = ri.tagName then
      { r with releaseName := ri.releaseName, body := ri.body }
    else r).tagName = r.tagName := by
  split <;> rfl

lemma mergeUpdate_map_id {ri : Release} {l : List Release}
    (h : ∀ r ∈ l, r.tagName ≠ ri.tagName) :
    l.map (fun release =>
      if release.tagName = ri.tagName then
        { release with releaseName := ri.releaseName, body := ri.body }
      else release) = l := by
  induction l with
  | nil => rfl
  | cons r tl ih =>
    rw [List.map_cons, if_neg (h r (by simp)), ih (fun x hx => h x (by simp [hx]))]

lemma mergeRelease_of_not_present {ri : Release} {l : List Release}
    (h : ∀ r ∈ l, r.tagName ≠ ri.tagName) :
    mergeRelease ri l = ri :: l := by
  unfold mergeRelease
  have hmap := mergeUpdate_map_id h
  have hany : (l.any (fun release => release.tagName = ri.tagName)) = false := by
    simp only [List.any_eq_false, decide_eq_true_eq]
    exact h
  rw [hany, hmap]
  simp

lemma mergeRelease_update_unique {ri x : Release} {l : List Release}
    (hx : x.tagName = ri.tagName) (h : ∀ r ∈ l, r.tagName ≠ ri.tagName) :
    mergeRelease ri (x :: l) =
      { x with releaseName := ri.releaseName, body := ri.body } :: l := by
  unfold mergeRelease
  have hmap := mergeUpdate_map_id h
  have hany : ((x :: l).any (fun release => release.tagName = ri.tagName)) = true := by
    simp [hx]
  rw [hany]
  simp only [List.map_cons, if_pos hx, hmap, if_true]

lemma tagCount_map_mergeUpdate (ri : Release) (l : List Release) (t : String) :
    tagCount (l.map (fun release =>
      if release.tagName = ri.tagName then
        { release with releaseName := ri.releaseName, body := ri.body }
      else release)) t = tagCount l t := by
  induction l with
  | nil => rfl
  | cons r tl ih =>
    rw [List.map_cons, tagCount_cons, tagCount_cons, ih, mergeUpdate_tagName]

lemma tagCount_merge {ri : Release} {l : List Release}
    (h : tagCount l ri.tagName ≤ 1) :
    tagCount (mergeRelease ri l) ri.tagName = 1 := by
  unfold mergeRelease
  cases hany : (l.any (fun release => release.tagName = ri.tagName)) with
  | false =>
    simp only [Bool.false_eq_true, if_false]
    rw [tagCount_cons, if_pos rfl, tagCount_map_mergeUpdate]
    have hz : tagCount l ri.tagName = 0 := by
      simp only [List.any_eq_false, decide_eq_true_eq] at hany
      unfold tagCount
      rw [List.length_eq_zero, List.filter_eq_nil_iff]
      intro r hr
      simpa using hany r hr
    omega
  | true =>
    simp only [if_true]
    rw [tagCount_map_mergeUpdate]
    have hpos : 0 < tagCount l ri.tagName := by
      simp only [List.any_eq_true, decide_eq_true_eq] at hany
      obtain ⟨r, hr, hrt⟩ := hany
      unfold tagCount
      rw [List.length_pos]
      intro hnil
      have : r ∈ l.filter (fun r => r.tagName = ri.tagName) :=
        List.mem_filter.mpr ⟨hr, by simpa using hrt⟩
      rw [hnil] at this
      cases this
    omega

lemma tagCount_merge_of_tag {ri : Release} {l : List Release} {t : String}
    (ht : ri.tagName = t) (h : tagCount l t ≤ 1) :
    tagCount (mergeRelease ri l) t = 1 := by
  subst ht
  exact tagCount_merge h

/-- Reduction of `UpdateReleases` on a well-formed `published` payload in
the cloud variant: the cache is replaced by the merged list and the blob
upload result is returned. -/
lemma updateReleases_cloud_published (o : EffectOracle) (now : GoTime)
    (st : ServiceState) (n t c p b : String) :
    updateReleases ⟨true⟩ o now st (mkWebhookPayload "published" n t c p b) =
      ({ st with cache := some (mergeRelease
            (getPrerequisiteContent (mkParsedRelease n t c p b))
            (st.cache.getD [])) },
        .result (updateTagToBlobStorage o).1 (updateTagToBlobStorage o).2) := rfl

/-- Reduction of `UpdateReleases` on a well-formed `published` payload in
the relational variant, down to the read of the active row. -/
lemma updateReleases_db_published_branch (o : EffectOracle) (now : GoTime)
    (st : ServiceState) (n t c p b : String) :
    updateReleases ⟨false⟩ o now st (mkWebhookPayload "published" n t c p b) =
      (match getActiveReleaseNote o st.db with
       | .error e => (st, .result false (some e))
       | .ok obj =>
         ({ st with db := (updateReleaseNotesInDb o now st.db
              (mergeRelease (getPrerequisiteContent (mkParsedRelease n t c p b))
                obj.releaseNote) true).1 }, .result true none)) := rfl

/-- C1 (amended).  Applying two `published` webhook events with the same
tag in sequence (cloud variant, blob effects succeeding) to a starting
list in which the tag occurs at most once leaves exactly one entry for
that tag; when the tag was not present initially, that entry carries the
second event's `releaseName` and `body` but retains every other field
(`createdAt`, `publishedAt`, prerequisite data) derived from the first
event — only `releaseName` and `body` are last-write-wins. -/
theorem updateReleases_same_tag_merge (start : List Release)
    (n1 c1 p1 b1 n2 c2 p2 b2 t : String) (now1 now2 : GoTime)
    (hcount : tagCount start t ≤ 1) :
    tagCount (((updateReleases ⟨true⟩ oracleOk now2
        ((updateReleases ⟨true⟩ oracleOk now1 { cache := some start, db := [] }
          (mkWebhookPayload "published" n1 t c1 p1 b1)).1)
        (mkWebhookPayload "published" n2 t c2 p2 b2)).1).cache.getD []) t = 1
    ∧ ((∀ r ∈ start, r.tagName ≠ t) →
        ((updateReleases ⟨true⟩ oracleOk now2
          ((updateReleases ⟨true⟩ oracleOk now1 { cache := some start, db := [] }
            (mkWebhookPayload "published" n1 t c1 p1 b1)).1)
          (mkWebhookPayload "published" n2 t c2 p2 b2)).1).cache
          = some ({ getPrerequisiteContent (mkParsedRelease n1 t c1 p1 b1) with
              releaseName := n2, body := b2 } :: start)) := by
  have htag1 : (getPrerequisiteContent (mkParsedRelease n1 t c1 p1 b1)).tagName = t :=
    (getPrerequisiteContent_preserves _).1
  have htag2 : (getPrerequisiteContent (mkParsedRelease n2 t c2 p2 b2)).tagName = t :=
    (getPrerequisiteContent_preserves _).1
  rw [updateReleases_cloud_published, updateReleases_cloud_published]
  simp only [Option.getD_some]
  constructor
  · exact tagCount_merge_of_tag htag2
      (le_of_eq (tagCount_merge_of_tag htag1 hcount))
  · intro hfresh
    have e1 : mergeRelease (getPrerequisiteContent (mkParsedRelease n1 t c1 p1 b1)) start
        = getPrerequisiteContent (mkParsedRelease n1 t c1 p1 b1) :: start :=
      mergeRelease_of_not_present (fun r hr => by rw [htag1]; exact hfresh r hr)
    have e2 : mergeRelease (getPrerequisiteContent (mkParsedRelease n2 t c2 p2 b2))
          (getPrerequisiteContent (mkParsedRelease n1 t c1 p1 b1) :: start)
        = { getPrerequisiteContent (mkParsedRelease n1 t c1 p1 b1) with
              releaseName := (getPrerequisiteContent (mkParsedRelease n2 t c2 p2 b2)).releaseName,
              body := (getPrerequisiteContent (mkParsedRelease n2 t c2 p2 b2)).body } :: start :=
      mergeRelease_update_unique (htag1.trans htag2.symm)
        (fun r hr => by rw [htag2]; exact hfresh r hr)
    rw [e1, e2, (getPrerequisiteContent_preserves (mkParsedRelease n2 t c2 p2 b2)).2.1,
      (getPrerequisiteContent_preserves (mkParsedRelease n2 t c2 p2 b2)).2.2.1]
    exact rfl

/-- C1 counterexample: after a `published` event for tag `v1` with
`created_at = 2021-01-01` followed by an `edited`-class second
`published` event for the same tag with `created_at = 2022-01-01`, the
stored entry carries the second event's name and body but the FIRST
event's `createdAt` — its fields are not all those of R2. -/
theorem updateReleases_same_tag_counterexample :
    ((updateReleases ⟨true⟩ oracleOk zeroGoTime
        ((updateReleases ⟨true⟩ oracleOk zeroGoTime initialServiceState c1Payload1).1)
        c1Payload2).1).cache
      = some [{ tagName := "v1", releaseName := "n2", body := "b2",
                createdAt := ⟨2021, 1, 1, 0, 0, 0⟩,
                publishedAt := ⟨2021, 1, 1, 0, 0, 0⟩,
                tagLink := "https://github.com/devtron-labs/devtron/releases/tag/v1",
                prerequisite := false, prerequisiteMessage := "" }]
    ∧ (timeParse "2022-01-01T00:00:00Z").getD zeroGoTime = ⟨2022, 1, 1, 0, 0, 0⟩
    ∧ (⟨2021, 1, 1, 0, 0, 0⟩ : GoTime) ≠ ⟨2022, 1, 1, 0, 0, 0⟩ := by
  refine ⟨?_, ?_, ?_⟩ <;> decide

/-- C1 witness: instantiation of the amended theorem at an empty
starting list and concrete field values. -/
theorem updateReleases_same_tag_merge_witness :
    tagCount (((updateReleases ⟨true⟩ oracleOk zeroGoTime
        ((updateReleases ⟨true⟩ oracleOk zeroGoTime { cache := some [], db := [] }
          (mkWebhookPayload "published" "n1" "v1" "c1" "p1" "b1")).1)
        (mkWebhookPayload "published" "n2" "v1" "c2" "p2" "b2")).1).cache.getD []) "v1" = 1
    ∧ ((updateReleases ⟨true⟩ oracleOk zeroGoTime
        ((updateReleases ⟨true⟩ oracleOk zeroGoTime { cache := some [], db := [] }
          (mkWebhookPayload "published" "n1" "v1" "c1" "p1" "b1")).1)
        (mkWebhookPayload "published" "n2" "v1" "c2" "p2" "b2")).1).cache
      = some [{ getPrerequisiteContent (mkParsedRelease "n1" "v1" "c1" "p1" "b1") with
          releaseName := "n2", body := "b2" }] := by
  have h := updateReleases_same_tag_merge [] "n1" "c1" "p1" "b1" "n2" "c2" "p2" "b2" "v1"
      zeroGoTime zeroGoTime (by decide)
  exact ⟨h.1, h.2 (fun r hr => by cases hr)⟩

/-- C3 (amended).  For positive `offset` and `size`: when the window
fits, the handler returns exactly the elements of `[offset, offset+size)`
(so `offset=2`, `size=3` on a 10-element list yields indices `[2,5)`);
when `offset` equals the list length it returns an empty slice; but when
`offset` exceeds the list length the slice expression `response[offset:]`
is out of range and the handler faults (`none`) instead of returning an
empty slice. -/
theorem paginateReleases_bounds (l : List Release) (offset limit : Int)
    (hoff : 0 < offset) (hlim : 0 < limit) :
    (offset + limit ≤ (l.length : Int) →
      paginateReleases l offset limit
        = some ((l.drop offset.toNat).take limit.toNat))
    ∧ ((l.length : Int) < offset → paginateReleases l offset limit = none)
    ∧ (offset = (l.length : Int) → paginateReleases l offset limit = some []) := by
  unfold paginateReleases
  rw [if_pos ⟨hlim, hoff⟩]
  refine ⟨fun h => ?_, fun h => ?_, fun h => ?_⟩
  · rw [if_pos h]
  · rw [if_neg (by omega), if_neg (by omega)]
  · rw [if_neg (by omega), if_pos (by omega)]
    have ht : offset.toNat = l.length := by omega
    rw [ht, List.drop_length]

/-- C3 counterexample: with a 10-element list, `offset=11`, `size=1`,
the slice step `response[offset:]` panics (modelled as `none`) rather
than producing an empty slice. -/
theorem paginateReleases_beyond_length_panics :
    tenReleases.length = 10 ∧ paginateReleases tenReleases 11 1 = none := by
  constructor <;> rfl

/-- C3 witness: the amended theorem at the concrete 10-element list. -/
theorem paginateReleases_bounds_witness :
    paginateReleases tenReleases 2 3
        = some ((tenReleases.drop (2 : Int).toNat).take (3 : Int).toNat)
    ∧ paginateReleases tenReleases 11 1 = none
    ∧ paginateReleases tenReleases 10 5 = some [] := by
  have h1 := paginateReleases_bounds tenReleases 2 3 (by decide) (by decide)
  have h2 := paginateReleases_bounds tenReleases 11 1 (by decide) (by decide)
  have h3 := paginateReleases_bounds tenReleases 10 5 (by decide) (by decide)
  exact ⟨h1.1 (by decide), h2.2.1 (by decide), h3.2.2 (by decide)⟩

/-- C10.  The handler slices only when both `offset > 0` and `size > 0`;
whenever either is not positive (in particular `offset = 0`, or absent —
Go leaves the zero value — with any positive `size`), the entire fetched
list is returned unsliced. -/
theorem paginateReleases_only_both_positive (l : List Release) (offset limit : Int)
    (h : offset ≤ 0 ∨ limit ≤ 0) : paginateReleases l offset limit = some l := by
  unfold paginateReleases
  rw [if_neg (by rintro ⟨h1, h2⟩; rcases h with h | h <;> omega)]

/-- C10 witness: `offset = 0` with `size = 3` returns the whole list. -/
theorem paginateReleases_only_both_positive_witness :
    paginateReleases tenReleases 0 3 = some tenReleases :=
  paginateReleases_only_both_positive tenReleases 0 3 (Or.inl (by decide))

/-- C6.  A well-formed webhook payload whose `action` is any string
other than `published`/`edited` makes `UpdateReleases` return
`(false, nil)` — not an error — with the cache and the database rows
untouched, in either backend variant. -/
theorem updateReleases_ignores_other_actions (cfg : BlobConfig) (o : EffectOracle)
    (now : GoTime) (st : ServiceState) (action n t c p b : String)
    (h1 : action ≠ "published") (h2 : action ≠ "edited") :
    updateReleases cfg o now st (mkWebhookPayload action n t c p b)
      = (st, .result false none) := by
  simp [updateReleases, mkWebhookPayload, lookupMember, Json.asString, h1, h2]

/-- C6 witness: `action = "deleted"`. -/
theorem updateReleases_ignores_other_actions_witness :
    updateReleases ⟨true⟩ oracleOk zeroGoTime initialServiceState
        (mkWebhookPayload "deleted" "n" "v1" "c" "p" "b")
      = (initialServiceState, .result false none) :=
  updateReleases_ignores_other_actions ⟨true⟩ oracleOk zeroGoTime initialServiceState
    "deleted" "n" "v1" "c" "p" "b" (by decide) (by decide)

/-- C7 (code bug).  The handler's event-type check
`len(eventType) == 0 && eventType != "release"` only rejects an empty
header: for the non-`release` event type `"push"` (valid signature) the
handler still proceeds to invoke `UpdateReleases`, contradicting the
documented "event-type header equal to release" validation. -/
theorem releaseWebhookGate_nonrelease_event_invokes_update :
    releaseWebhookGate true "push" = WebhookDecision.invokeUpdate
    ∧ "push" ≠ "release" := by
  constructor
  · rfl
  · decide

/-- C8 counterexample: the valid JSON document `{}` decodes to an empty
object; `data["action"].(string)` is then a type assertion on a nil
interface value and `UpdateReleases` panics instead of returning a
bad-request error. -/
theorem updateReleases_empty_object_panics :
    updateReleases ⟨true⟩ oracleOk zeroGoTime initialServiceState (Json.obj [])
      = (initialServiceState, .panic) := rfl

/-- C8 (amended).  A request body that does not decode to a JSON object
is rejected with the unmarshal error (bad-request class, state
untouched); but a decoded object whose `action` member is missing or not
a string makes `UpdateReleases` fault with a runtime type-assertion
panic instead of returning an error. -/
theorem updateReleases_malformed_payload (cfg : BlobConfig) (o : EffectOracle)
    (now : GoTime) (st : ServiceState) :
    (∀ members, (lookupMember members "action").asString = none →
      updateReleases cfg o now st (Json.obj members) = (st, .panic))
    ∧ (∀ q : ℚ, updateReleases cfg o now st (Json.num q)
        = (st, .result false (some .unmarshalError)))
    ∧ (∀ s : String, updateReleases cfg o now st (Json.str s)
        = (st, .result false (some .unmarshalError))) := by
  refine ⟨fun members h => ?_, fun q => rfl, fun s => rfl⟩
  simp only [updateReleases]
  rw [h]

/-- C8 witness: a concrete object missing `action`, and a concrete
non-object document. -/
theorem updateReleases_malformed_payload_witness :
    updateReleases ⟨false⟩ oracleOk zeroGoTime stRelActive
        (Json.obj [("x", Json.null)]) = (stRelActive, .panic)
    ∧ updateReleases ⟨false⟩ oracleOk zeroGoTime stRelActive
        (Json.str "not-a-map") = (stRelActive, .result false (some .unmarshalError)) := by
  have h := updateReleases_malformed_payload ⟨false⟩ oracleOk zeroGoTime stRelActive
  exact ⟨h.1 [("x", Json.null)] rfl, h.2.2 "not-a-map"⟩

/-- C9 (code bug).  In `URL_APPEND` mode the case body is commented out
in the source, so `ValidateSecret` falls through to `return false` for
every request — including one that does carry the configured secret as
the last path segment.  The mode is not a functioning validation path. -/
theorem validateSecret_url_append_rejects_all
    (hmacSha1Hex : String → String → String) (secret : String) (r : WebhookRequest) :
    validateSecret hmacSha1Hex
        { gitHubSecretValidator := "URL_APPEND", gitHubWebhookSecret := secret } r
      = some false := rfl

lemma updateReleaseNotesInDb_rollback {o : EffectOracle} {now : GoTime}
    {db : List ReleaseNoteRecord} {rl : List Release} {w : Bool} {e : GoErr}
    (h : (updateReleaseNotesInDb o now db rl w).2 = some e) :
    (updateReleaseNotesInDb o now db rl w).1 = db := by
  unfold updateReleaseNotesInDb saveAndCommit at h ⊢
  repeat' split at h
  all_goals repeat' split
  all_goals simp_all

/-- C4 (amended).  On persistence failure the two variants behave
asymmetrically, and the claim fails in both.  Relational variant (an
active row present): `UpdateReleases` returns `(true, nil)` regardless
of the transaction outcome — the persistence error is never surfaced —
though a failed transaction does roll back, leaving the state unchanged.
Cloud variant: a blob write/upload failure is surfaced as an error, but
the in-process cache already holds the new merged list — partial state
is committed. -/
theorem updateReleases_persistence_failure (o : EffectOracle) (now : GoTime)
    (st : ServiceState) (n t c p b : String) :
    (∀ a : ReleaseNoteRecord, o.dbFindOk = true → findActive st.db = some a →
      ((updateReleases ⟨false⟩ o now st (mkWebhookPayload "published" n t c p b)).2
          = .result true none
        ∧ ∀ e, (updateReleaseNotesInDb o now st.db
              (mergeRelease (getPrerequisiteContent (mkParsedRelease n t c p b))
                a.releaseNote) true).2 = some e →
            (updateReleases ⟨false⟩ o now st
              (mkWebhookPayload "published" n t c p b)).1 = st))
    ∧ ((o.blobFileOk = false ∨ o.blobUploadOk = false) →
        ((updateReleases ⟨true⟩ o now st (mkWebhookPayload "published" n t c p b)).2
            = .result false (some .blobError)
          ∧ (updateReleases ⟨true⟩ o now st
              (mkWebhookPayload "published" n t c p b)).1.cache
              = some (mergeRelease (getPrerequisiteContent (mkParsedRelease n t c p b))
                  (st.cache.getD [])))) := by
  constructor
  · intro a hfind ha
    have hact : getActiveReleaseNote o st.db = .ok a := by
      simp [getActiveReleaseNote, hfind, ha]
    rw [updateReleases_db_published_branch, hact]
    refine ⟨rfl, fun e he => ?_⟩
    dsimp only
    rw [updateReleaseNotesInDb_rollback he]
  · intro hblob
    rw [updateReleases_cloud_published]
    have hup : updateTagToBlobStorage o = (false, some .blobError) := by
      unfold updateTagToBlobStorage
      rcases hblob with h | h
      · simp [h]
      · cases hf : o.blobFileOk <;> simp [h, hf]
    rw [hup]
    exact ⟨rfl, rfl⟩

/-- C4 counterexample: with the relational variant, an active row and a
failing transaction commit, `UpdateReleases` reports `(true, nil)` —
success with no error — even though the persistence step failed (its
error, shown in the second conjunct, is discarded). -/
theorem updateReleases_commit_failure_counterexample :
    updateReleases ⟨false⟩ oracleFail zeroGoTime stRelActive
        (mkWebhookPayload "published" "n" "v1" "c" "p" "b")
      = (stRelActive, .result true none)
    ∧ (updateReleaseNotesInDb oracleFail zeroGoTime stRelActive.db
        (mergeRelease (getPrerequisiteContent (mkParsedRelease "n" "v1" "c" "p" "b"))
          relActiveRec.releaseNote) true).2 = some .dbError := by
  constructor <;> rfl

/-- C4 witness: the amended theorem at a failing commit (relational) and
a failing upload (cloud). -/
theorem updateReleases_persistence_failure_witness :
    ((updateReleases ⟨false⟩ oracleFail zeroGoTime stRelActive
        (mkWebhookPayload "published" "n" "v1" "c" "p" "b")).2 = .result true none
      ∧ (updateReleases ⟨false⟩ oracleFail zeroGoTime stRelActive
          (mkWebhookPayload "published" "n" "v1" "c" "p" "b")).1 = stRelActive)
    ∧ ((updateReleases ⟨true⟩ oracleFail zeroGoTime stRelActive
        (mkWebhookPayload "published" "n" "v1" "c" "p" "b")).2
          = .result false (some .blobError)
      ∧ (updateReleases ⟨true⟩ oracleFail zeroGoTime stRelActive
          (mkWebhookPayload "published" "n" "v1" "c" "p" "b")).1.cache
          = some (mergeRelease
              (getPrerequisiteContent (mkParsedRelease "n" "v1" "c" "p" "b"))
              (stRelActive.cache.getD []))) := by
  have h := updateReleases_persistence_failure oracleFail zeroGoTime stRelActive
    "n" "v1" "c" "p" "b"
  have h1 := h.1 relActiveRec rfl rfl
  exact ⟨⟨h1.1, h1.2 .dbError rfl⟩, h.2 (Or.inr rfl)⟩

lemma activeCount_zero_of_findActive_none {db : List ReleaseNoteRecord}
    (h : findActive db = none) : activeCount db = 0 := by
  unfold activeCount
  rw [List.length_eq_zero, List.filter_eq_nil_iff]
  intro r hr
  have := List.find?_eq_none.mp h r hr
  simpa using this

lemma active_unique {db : List ReleaseNoteRecord} (h : activeCount db ≤ 1)
    {a r : ReleaseNoteRecord} (ha : a ∈ db) (haa : a.isActive = true)
    (hr : r ∈ db) (hra : r.isActive = true) : r = a := by
  have haf : a ∈ db.filter (fun r => r.isActive) :=
    List.mem_filter.mpr ⟨ha, by simpa using haa⟩
  have hrf : r ∈ db.filter (fun r => r.isActive) :=
    List.mem_filter.mpr ⟨hr, by simpa using hra⟩
  unfold activeCount at h
  cases hfl : db.filter (fun r => r.isActive) with
  | nil =>
    rw [hfl] at haf
    cases haf
  | cons x tl =>
    cases tl with
    | nil =>
      rw [hfl] at haf hrf
      simp only [List.mem_singleton] at haf hrf
      rw [haf, hrf]
    | cons y tl2 =>
      rw [hfl] at h
      simp at h

lemma saveAndCommit_inv {o : EffectOracle} {now : GoTime}
    {db0 staged : List ReleaseNoteRecord} {rl : List Release}
    (h0 : activeCount db0 ≤ 1 ∧ ∀ r ∈ db0, 0 < r.id)
    (hst : activeCount staged = 0) (hid : ∀ r ∈ staged, 0 < r.id) :
    activeCount (saveAndCommit o now db0 staged rl).1 ≤ 1
      ∧ ∀ r ∈ (saveAndCommit o now db0 staged rl).1, 0 < r.id := by
  unfold saveAndCommit
  split
  · exact h0
  · split
    · exact h0
    · constructor
      · unfold activeCount at hst ⊢
        rw [List.filter_append, List.length_append, hst]
        simp
      · intro r hr
        rcases List.mem_append.mp hr with hr | hr
        · exact hid r hr
        · simp only [List.mem_singleton] at hr
          subst hr
          simp [nextReleaseNoteId]

lemma storeRecord_activeCount_zero {db : List ReleaseNoteRecord}
    {a : ReleaseNoteRecord} (h1 : activeCount db ≤ 1)
    (ha : findActive db = some a) (rec : ReleaseNoteRecord)
    (hrec : rec.isActive = false) (hidr : rec.id = a.id) :
    activeCount (storeRecord db rec) = 0 := by
  have hmem : a ∈ db := List.mem_of_find?_eq_some ha
  have haa : a.isActive = true := by
    have := List.find?_some ha
    simpa using this
  unfold activeCount storeRecord
  rw [List.length_eq_zero, List.filter_eq_nil_iff]
  intro x hx
  rcases List.mem_map.mp hx with ⟨r, hr, rfl⟩
  by_cases hcase : r.id = rec.id
  · simp [hcase, hrec]
  · rw [if_neg hcase]
    simp only [Bool.not_eq_true]
    cases hrac : r.isActive with
    | false => rfl
    | true =>
      exfalso
      have := active_unique h1 hmem haa hr hrac
      rw [this, ← hidr] at hcase
      exact hcase rfl

lemma storeRecord_ids {db : List ReleaseNoteRecord} (rec : ReleaseNoteRecord)
    (h : ∀ r ∈ db, 0 < r.id) (hpos : 0 < rec.id) :
    ∀ r ∈ storeRecord db rec, 0 < r.id := by
  intro r hr
  unfold storeRecord at hr
  rcases List.mem_map.mp hr with ⟨x, hx, rfl⟩
  by_cases hcase : x.id = rec.id
  · simpa [hcase] using hpos
  · simpa [hcase] using h x hx

lemma updateReleaseNotesInDb_inv {o : EffectOracle} {now : GoTime}
    {db : List ReleaseNoteRecord} {rl : List Release} {w : Bool}
    (h : activeCount db ≤ 1 ∧ ∀ r ∈ db, 0 < r.id) :
    activeCount (updateReleaseNotesInDb o now db rl w).1 ≤ 1
      ∧ ∀ r ∈ (updateReleaseNotesInDb o now db rl w).1, 0 < r.id := by
  unfold updateReleaseNotesInDb
  split
  · exact h
  · split
    · rename_i e heq
      split
      · rename_i hcond
        refine saveAndCommit_inv h ?_ h.2
        unfold getActiveReleaseNote at heq
        split at heq
        · cases heq
          exact absurd hcond.1 (by decide)
        · split at heq
          · rename_i hfa
            exact activeCount_zero_of_findActive_none hfa
          · cases heq
      · exact h
    · rename_i obj heq
      have hobj : findActive db = some obj := by
        unfold getActiveReleaseNote at heq
        split at heq
        · cases heq
        · split at heq
          · cases heq
          · rename_i r hfa
            cases heq
            exact hfa
      have hpos := h.2 obj (List.mem_of_find?_eq_some hobj)
      rw [if_pos hpos]
      split
      · exact h
      · refine saveAndCommit_inv h ?_ ?_
        · exact storeRecord_activeCount_zero h.1 hobj _ rfl rfl
        · exact storeRecord_ids _ h.2 hpos

lemma applyServiceOp_inv (cfg : BlobConfig) (st : ServiceState) (op : ServiceOp)
    (h : activeCount st.db ≤ 1 ∧ ∀ r ∈ st.db, 0 < r.id) :
    activeCount (applyServiceOp cfg st op).db ≤ 1
      ∧ ∀ r ∈ (applyServiceOp cfg st op).db, 0 < r.id := by
  cases op with
  | get o now =>
    unfold applyServiceOp getReleases getReleasesCloudRefresh getReleasesDbRefresh
    dsimp only
    repeat' split
    all_goals first
      | exact h
      | exact updateReleaseNotesInDb_inv h
  | update o now payload =>
    unfold applyServiceOp updateReleases
    cases payload
    case obj members =>
      dsimp only
      repeat' split
      all_goals first
        | exact h
        | exact updateReleaseNotesInDb_inv h
    all_goals exact h

/-- C5.  Starting from the initial state, every state reachable under
any sequence of `UpdateReleases` and `GetReleases` operations — with
arbitrary payloads and arbitrary effect outcomes, in either backend
variant — has at most one `release_notes` row with `isActive = true`
(the single-active-row invariant of the relational store, matching the
partial unique index `only_one_row_with_active_release_note`). -/
theorem releaseNotes_single_active_invariant (cfg : BlobConfig)
    (ops : List ServiceOp) :
    activeCount (runServiceOps cfg initialServiceState ops).db ≤ 1 := by
  have key : ∀ (ops : List ServiceOp) (st : ServiceState),
      (activeCount st.db ≤ 1 ∧ ∀ r ∈ st.db, 0 < r.id) →
      activeCount (runServiceOps cfg st ops).db ≤ 1
        ∧ ∀ r ∈ (runServiceOps cfg st ops).db, 0 < r.id := by
    intro ops
    induction ops with
    | nil => exact fun st h => h
    | cons op rest ih => exact fun st h => ih _ (applyServiceOp_inv cfg st op h)
  exact (key ops initialServiceState ⟨by decide, fun r hr => by cases hr⟩).1

/-- Success-path shape supporting C5's superseding mechanism: on a webhook-triggered
`updateReleaseNotesInDb` with an active row present, that row is marked
inactive (via `Update`) and exactly one new active row holding the new
list is inserted (via `Save`), all inside the one transaction. -/
theorem updateReleaseNotesInDb_supersedes (o : EffectOracle) (now : GoTime)
    (db : List ReleaseNoteRecord) (rl : List Release) (a : ReleaseNoteRecord)
    (ha : findActive db = some a) (hpos : 0 < a.id)
    (hsucc : (updateReleaseNotesInDb o now db rl true).2 = none) :
    (updateReleaseNotesInDb o now db rl true).1
      = storeRecord db { a with isActive := false, updatedOn := some now }
          ++ [{ id := nextReleaseNoteId
                  (storeRecord db { a with isActive := false, updatedOn := some now }),
                releaseNote := rl, isActive := true,
                createdOn := now, updatedOn := none }] := by
  by_cases hbg : o.dbBeginOk = true
  case neg => simp [updateReleaseNotesInDb, hbg] at hsucc
  by_cases hfo : o.dbFindOk = true
  case neg =>
    simp [updateReleaseNotesInDb, getActiveReleaseNote, hbg, hfo] at hsucc
  have hact : getActiveReleaseNote o db = .ok a := by
    simp [getActiveReleaseNote, hfo, ha]
  by_cases hup : o.dbUpdateOk = true
  case neg =>
    simp [updateReleaseNotesInDb, saveAndCommit, hbg, hact, hpos, hup] at hsucc
  by_cases hsv : o.dbSaveOk = true
  case neg =>
    simp [updateReleaseNotesInDb, saveAndCommit, hbg, hact, hpos, hup, hsv] at hsucc
  by_cases hcm : o.dbCommitOk = true
  case neg =>
    simp [updateReleaseNotesInDb, saveAndCommit, hbg, hact, hpos, hup, hsv, hcm] at hsucc
  simp [updateReleaseNotesInDb, saveAndCommit, hbg, hact, hpos, hup, hsv, hcm]

/-- Instantiation of the supersede-shape lemma at a concrete one-row
store. -/
theorem updateReleaseNotesInDb_supersedes_witness :
    (updateReleaseNotesInDb oracleOk zeroGoTime [relActiveRec] [] true).1
      = storeRecord [relActiveRec]
            { relActiveRec with isActive := false, updatedOn := some zeroGoTime }
          ++ [{ id := nextReleaseNoteId (storeRecord [relActiveRec]
                  { relActiveRec with isActive := false, updatedOn := some zeroGoTime }),
                releaseNote := [], isActive := true,
                createdOn := zeroGoTime, updatedOn := none }] :=
  updateReleaseNotesInDb_supersedes oracleOk zeroGoTime [relActiveRec] [] relActiveRec
    rfl (by decide) rfl

end CentralApi
